import Mathlib

/-!
Verification of the hextex viewport/layout engine (src/hextex/tui.py,
src/hextex/bin.py, src/hextex/cli.py) against its specification.

The Python code is shallowly embedded: bytes are `Nat` values below 256,
byte buffers are `List Nat`, fallible operations return `Option`, and the
mutable fields of the `HexTex` app become an explicit `HexState` record.
`DataTable.move_cursor` calls are modelled as commands emitted to the
external display adapter (returned as `Option (Nat × Nat)` coordinates),
and `DataTable.CellHighlighted` events are modelled as an explicit entry
point `onCellHighlighted`.
-/

/-- The four group widths the app cycles through (`HexTex.WIDTH_OPTIONS`). -/
def WIDTH_OPTIONS : List Nat := [1, 2, 4, 8]

/-- `HexTex.FIXED_ROW_WIDTH`: total bytes per displayed row. -/
def FIXED_ROW_WIDTH : Nat := 16

/-- Uppercase hexadecimal digit character for `d < 16`, as produced by
Python `X` format conversions (digits `0`-`9` then `A`-`F`). -/
def hexDigitU (d : Nat) : Char :=
  if d < 10 then Char.ofNat (48 + d) else Char.ofNat (55 + d)

/-- Hex digits of `n`, least significant first, with explicit fuel so the
definition is structural (the fuel `n` itself always suffices). -/
def toHexRevAux : Nat → Nat → List Char
  | 0, _ => []
  | fuel + 1, n => if n = 0 then [] else hexDigitU (n % 16) :: toHexRevAux fuel (n / 16)

/-- Hex digits of `n`, least significant first, empty for `n = 0`. -/
def toHexRev (n : Nat) : List Char := toHexRevAux n n

/-- Python `f"{n:X}"`: uppercase hexadecimal of `n` with no padding. -/
def pyHexUpper (n : Nat) : String :=
  if n = 0 then "0" else String.mk (toHexRev n).reverse

/-- Left-pad with `'0'` to length `k`: together with `pyHexUpper` this is
Python `f"{n:0kX}"` for non-negative `n`. -/
def zfill (k : Nat) (s : String) : String :=
  String.mk (List.replicate (k - s.data.length) '0' ++ s.data)

/-- Numeric value of an ASCII hex digit character (0 for other characters). -/
def hexCharVal (c : Char) : Nat :=
  if 48 ≤ c.toNat ∧ c.toNat ≤ 57 then c.toNat - 48
  else if 97 ≤ c.toNat ∧ c.toNat ≤ 102 then c.toNat - 87
  else if 65 ≤ c.toNat ∧ c.toNat ≤ 70 then c.toNat - 55
  else 0

/-- Whether `c` is an ASCII hex digit (either case). -/
def isHexDigitChar (c : Char) : Bool :=
  (48 ≤ c.toNat && c.toNat ≤ 57) || (97 ≤ c.toNat && c.toNat ≤ 102) ||
    (65 ≤ c.toNat && c.toNat ≤ 70)

/-- Whether `c` is a digit or an uppercase hex letter, the alphabet of
Python `X` conversions. -/
def isUpperHexChar (c : Char) : Bool :=
  (48 ≤ c.toNat && c.toNat ≤ 57) || (65 ≤ c.toNat && c.toNat ≤ 70)

/-- Value of a list of hex digit characters, most significant first. -/
def fromHexChars (l : List Char) : Nat :=
  l.foldl (fun a c => a * 16 + hexCharVal c) 0

/-- Unsigned little-endian value of a byte list (least significant byte
first), the semantics of `struct.unpack` with a `"<"` format. -/
def leValue : List Nat → Nat
  | [] => 0
  | b :: rest => b + 256 * leValue rest

/-- Value of one group of bytes under the configured endianness: `"<"`
(little endian, least significant byte first) or `">"` (big endian). -/
def groupValue (little : Bool) (bs : List Nat) : Nat :=
  if little then leValue bs else leValue bs.reverse

/-- Model of `struct.unpack(f"{e}{len(chunk)//w}{code}", chunk)` for an
unsigned integer code of size `w`: Python `struct.unpack` demands that the
buffer length equal `calcsize`, i.e. `w * (len // w) = len`, and raises
`struct.error` otherwise (`none`); on success it yields the list of group
values in order. -/
def structUnpackU (w : Nat) (little : Bool) (chunk : List Nat) : Option (List Nat) :=
  if w * (chunk.length / w) = chunk.length then
    some ((List.range (chunk.length / w)).map
      (fun i => groupValue little ((chunk.drop (i * w)).take w)))
  else none

/-- The `hex_values` computation of `HexTex.refresh_display` (tui.py lines
183-195): one branch per width; width 1 formats each byte with `f"{b:02X}"`,
widths 2/4/8 unpack unsigned groups and format with `f"{v:04X}"`,
`f"{v:08X}"`, `f"{v:016X}"`; any other width leaves `hex_values = []`. -/
def formatHexRow (w : Nat) (little : Bool) (chunk : List Nat) : Option (List String) :=
  if w = 1 then some (chunk.map (fun b => zfill 2 (pyHexUpper b)))
  else if w = 2 then
    (structUnpackU 2 little chunk).map (fun vs => vs.map (fun v => zfill 4 (pyHexUpper v)))
  else if w = 4 then
    (structUnpackU 4 little chunk).map (fun vs => vs.map (fun v => zfill 8 (pyHexUpper v)))
  else if w = 8 then
    (structUnpackU 8 little chunk).map (fun vs => vs.map (fun v => zfill 16 (pyHexUpper v)))
  else some []

/-- The `ascii_values` computation of `HexTex.refresh_display` (tui.py line
197): `chr(b) if 32 <= b <= 126 else "."`, one cell per raw byte. -/
def asciiRow (chunk : List Nat) : List String :=
  chunk.map (fun b => if 32 ≤ b ∧ b ≤ 126 then String.mk [Char.ofNat b] else ".")

/-- One row of `HexTex.refresh_display`: the hex cells (which can fail via
`struct.error`) paired with the ASCII cells. -/
def renderRow (w : Nat) (little : Bool) (chunk : List Nat) : Option (List String × List String) :=
  match formatHexRow w little chunk with
  | none => none
  | some h => some (h, asciiRow chunk)

/-- The chunk of row `row` in `HexTex.refresh_display` (tui.py lines
180-181): `self.binfile.data[row_offset : row_offset + self.row_depth]`. -/
def rowChunk (data : List Nat) (rowDepth row : Nat) : List Nat :=
  (data.drop (row * rowDepth)).take rowDepth

/-- Python `list.index`: position of the first occurrence, `none` models
the `ValueError` raised when the element is absent. -/
def pyIndex : List Nat → Nat → Option Nat
  | [], _ => none
  | y :: rest, x => if y = x then some 0 else (pyIndex rest x).map (· + 1)

/-- Python `range(0, stop, step)` for `step > 0`. -/
def pyRange (stop step : Nat) : List Nat :=
  (List.range ((stop + step - 1) / step)).map (fun i => i * step)

/-- The column-count and hex header computation of `HexTex.set_columns`
(tui.py lines 147-158): one branch per width, columns 16/8/4/2 and headers
`f"0x{i:02X}"`, `f"0x{i:04X}"`, `f"0x{i:08X}"`, `f"0x{i:016X}"` over
`range(0, 16, width)`; an unknown width leaves `hex_headers` unbound and
the method raises (`none`). -/
def set_columns_layout (w : Nat) : Option (Nat × List String) :=
  if w = 1 then
    some (16, (List.range FIXED_ROW_WIDTH).map (fun i => "0x" ++ zfill 2 (pyHexUpper i)))
  else if w = 2 then
    some (8, (pyRange FIXED_ROW_WIDTH 2).map (fun i => "0x" ++ zfill 4 (pyHexUpper i)))
  else if w = 4 then
    some (4, (pyRange FIXED_ROW_WIDTH 4).map (fun i => "0x" ++ zfill 8 (pyHexUpper i)))
  else if w = 8 then
    some (2, (pyRange FIXED_ROW_WIDTH 8).map (fun i => "0x" ++ zfill 16 (pyHexUpper i)))
  else none

/-- The ASCII headers of `HexTex.set_columns` (tui.py line 160):
`[f"{i:X}" for i in range(self.FIXED_ROW_WIDTH)]`, independent of the
group width. -/
def asciiHeaders : List String :=
  (List.range FIXED_ROW_WIDTH).map (fun i => pyHexUpper i)

/-- The mutable display fields of the `HexTex` app (tui.py lines 90-101).
`offset` is the cursor byte offset; `ignore_change` suppresses the
cell-highlighted handler during programmatic rebuilds. -/
structure HexState where
  cell_count : Nat
  columns : Nat
  row_depth : Nat
  rows : Nat
  little_endian : Bool
  width : Nat
  index : Nat
  offset : Nat
  ignore_change : Bool
deriving DecidableEq

/-- `HexTex.__init__` (tui.py lines 107-116) for a file of `dataLen`
bytes: `columns = 16 // width`, `row_depth = columns * width`,
`rows = len(data) // columns`. The CLI restricts `width` to
`WIDTH_OPTIONS`, so the `.index` lookup is defaulted. -/
def HexTex_init (dataLen : Nat) (width : Nat) : HexState :=
  let columns := 16 / width
  { cell_count := dataLen
  , columns := columns
  , row_depth := columns * width
  , rows := dataLen / columns
  , little_endian := true
  , width := width
  , index := (pyIndex WIDTH_OPTIONS width).getD 0
  , offset := 0
  , ignore_change := false }

/-- Offset-to-coordinate conversion used by `HexTex.refresh_display`
(tui.py lines 200-201) and `HexTex.action_goto_offset` (lines 238-239):
`row = offset // row_depth`, `col = (offset % row_depth) // width`. -/
def offsetToCoordinate (rowDepth w off : Nat) : Nat × Nat :=
  (off / rowDepth, (off % rowDepth) / w)

/-- `HexTex.on_data_table_cell_highlighted` (tui.py lines 249-266): when
not suppressed, both the hex-view and the ascii-view branch set
`self.offset = row * self.row_depth + column` and move the other table's
cursor to the same `(row, column)`; the emitted move command is returned
alongside the new state. -/
def onCellHighlighted (s : HexState) (fromHexView : Bool) (row col : Nat) :
    HexState × Option (Nat × Nat) :=
  if s.ignore_change then (s, none)
  else if fromHexView then
    ({ s with offset := row * s.row_depth + col }, some (row, col))
  else
    ({ s with offset := row * s.row_depth + col }, some (row, col))

/-- Byte offset of the first byte shown in the hex-view cell `(row, col)`:
row `row` renders the chunk starting at `row * row_depth`, and
`struct.unpack` group `col` covers chunk bytes `[col*width, (col+1)*width)`
(tui.py lines 180-195). -/
def hexCellByteOffset (s : HexState) (row col : Nat) : Nat :=
  row * s.row_depth + col * s.width

/-- Byte offset of the ascii-view cell `(row, col)`: the ASCII table has
one column per raw byte of the row chunk (tui.py line 197). -/
def asciiCellByteOffset (s : HexState) (row col : Nat) : Nat :=
  row * s.row_depth + col

/-- Round trip of the cursor offset through the displayed coordinate and
back through the cell-highlighted handler. -/
def cursorRoundTrip (s : HexState) (off : Nat) : Nat :=
  let rc := offsetToCoordinate s.row_depth s.width off
  ((onCellHighlighted s true rc.1 rc.2).1).offset

/-- `HexTex.action_toggle_width` (tui.py lines 220-228): look up the
current width in `WIDTH_OPTIONS` (`.index` raises when absent), cycle to
the next option, rebuild columns via `set_columns`, re-render, and clear
`ignore_change`. `refresh_display` and the `move_cursor` calls to the
display adapter touch no engine field while the handler is suppressed. -/
def action_toggle_width (s : HexState) : Option HexState :=
  match pyIndex WIDTH_OPTIONS s.width with
  | none => none
  | some ci =>
    let w := WIDTH_OPTIONS.getD ((ci + 1) % WIDTH_OPTIONS.length) 0
    match set_columns_layout w with
    | none => none
    | some p => some { s with width := w, columns := p.1, ignore_change := false }

/-- `action_toggle_width` iterated `n` times. -/
def iterToggle : Nat → HexState → Option HexState
  | 0, s => some s
  | n + 1, s =>
    match action_toggle_width s with
    | none => none
    | some s2 => iterToggle n s2

/-- Whether `c` is ASCII whitespace as stripped by Python `int`. -/
def isPySpace (c : Char) : Bool :=
  c == ' ' || c == '\t' || c == '\n' || c == '\r' || c.toNat == 11 || c.toNat == 12

/-- Strip leading and trailing whitespace. -/
def pyStrip (l : List Char) : List Char :=
  ((l.dropWhile isPySpace).reverse.dropWhile isPySpace).reverse

/-- Digit tail of Python's integer grammar `digit (["_"] digit)*`:
underscores are only allowed singly and between digits. -/
def parseHexGo : Nat → List Char → Option Nat
  | acc, [] => some acc
  | _, ['_'] => none
  | acc, '_' :: c :: rest =>
    if isHexDigitChar c then parseHexGo (acc * 16 + hexCharVal c) rest else none
  | acc, c :: rest =>
    if isHexDigitChar c then parseHexGo (acc * 16 + hexCharVal c) rest else none

/-- At least one hex digit, then the digit tail. -/
def parseHexDigits : List Char → Option Nat
  | [] => none
  | c :: rest => if isHexDigitChar c then parseHexGo (hexCharVal c) rest else none

/-- Model of Python `int(s, 16)`: strip whitespace, optional sign,
optional `0x`/`0X` prefix (an underscore may follow the prefix), then
hex digits with single underscores between digits; `none` models
`ValueError`. -/
def pyIntHex (s : String) : Option Int :=
  let l0 := pyStrip s.data
  let signAndRest : Bool × List Char :=
    match l0 with
    | '+' :: r => (false, r)
    | '-' :: r => (true, r)
    | _ => (false, l0)
  let body : List Char :=
    match signAndRest.2 with
    | '0' :: 'x' :: '_' :: r => r
    | '0' :: 'x' :: r => r
    | '0' :: 'X' :: '_' :: r => r
    | '0' :: 'X' :: r => r
    | l1 => l1
  match parseHexDigits body with
  | none => none
  | some n => some (if signAndRest.1 then -(n : Int) else (n : Int))

/-- The `new_offset` callback of `HexTex.action_goto_offset` (tui.py lines
233-245): parse the entry with `int(_, 16)`; a `ValueError` is swallowed
with no state change; a parsed value outside `0 <= v < binfile.size` is
ignored; otherwise `self.offset` is set and the hex table's cursor is
moved to `(offset // row_depth, (offset % row_depth) // width)` (the
emitted move command is returned alongside the new state). -/
def new_offset_model (size : Nat) (s : HexState) (entry : String) :
    HexState × Option (Nat × Nat) :=
  match pyIntHex entry with
  | none => (s, none)
  | some v =>
    if 0 ≤ v ∧ v < (size : Int) then
      let s2 := { s with offset := v.toNat }
      (s2, some (offsetToCoordinate s2.row_depth s2.width s2.offset))
    else (s, none)

/-- Instance attributes assigned by `BinFile.__init__` (bin.py lines
10-14). -/
def binFileInstanceAttrs : List String := ["path", "offset", "size"]

/-- Methods defined by `class BinFile` (bin.py lines 5-32). -/
def binFileMethods : List String := ["__init__", "load_chunk", "save_chunk"]

/-- Python attribute lookup on a `BinFile` instance. -/
def binFileHasAttr (name : String) : Bool :=
  binFileInstanceAttrs.contains name || binFileMethods.contains name

/-- How far `main` (cli.py lines 24-31) gets. -/
inductive MainOutcome where
  | fileNotFound
  | attributeError
  | uiShown
deriving DecidableEq

/-- Model of `main` (cli.py lines 24-31): construct `BinFile(args.input)`
(which raises if the path does not exist), call `bf.load()` (an attribute
lookup on the instance), construct `HexTex(bf, args.width)` whose
`__init__` reads `self.binfile.data` (another attribute lookup), then
`app.run()` shows the UI. -/
def main_model (fileExists : Bool) : MainOutcome :=
  if fileExists then
    if binFileHasAttr "load" then
      if binFileHasAttr "data" then MainOutcome.uiShown
      else MainOutcome.attributeError
    else MainOutcome.attributeError
  else MainOutcome.fileNotFound

/-! ### Helper lemmas -/

theorem structUnpackU_none (w : Nat) (little : Bool) (chunk : List Nat)
    (h : ¬ w ∣ chunk.length) : structUnpackU w little chunk = none := by
  unfold structUnpackU
  rw [if_neg]
  intro hc
  exact h ⟨chunk.length / w, hc.symm⟩

theorem structUnpackU_some (w : Nat) (little : Bool) (chunk : List Nat)
    (h : w ∣ chunk.length) :
    structUnpackU w little chunk =
      some ((List.range (chunk.length / w)).map
        (fun i => groupValue little ((chunk.drop (i * w)).take w))) := by
  unfold structUnpackU
  rw [if_pos (Nat.mul_div_cancel' h)]

theorem toggle_step (s : HexState) (h : s.width ∈ WIDTH_OPTIONS) :
    ∃ s2, action_toggle_width s = some s2 ∧ s2.offset = s.offset ∧
      s2.rows = s.rows ∧ s2.row_depth = s.row_depth ∧ s2.width ∈ WIDTH_OPTIONS := by
  have h0 : s.width = 1 ∨ s.width = 2 ∨ s.width = 4 ∨ s.width = 8 := by
    simpa [WIDTH_OPTIONS] using h
  rcases h0 with h1 | h1 | h1 | h1
  · exact ⟨{ s with width := 2, columns := 8, ignore_change := false },
      by simp [action_toggle_width, pyIndex, WIDTH_OPTIONS, set_columns_layout, h1, List.getD],
      rfl, rfl, rfl, by simp [WIDTH_OPTIONS]⟩
  · exact ⟨{ s with width := 4, columns := 4, ignore_change := false },
      by simp [action_toggle_width, pyIndex, WIDTH_OPTIONS, set_columns_layout, h1, List.getD],
      rfl, rfl, rfl, by simp [WIDTH_OPTIONS]⟩
  · exact ⟨{ s with width := 8, columns := 2, ignore_change := false },
      by simp [action_toggle_width, pyIndex, WIDTH_OPTIONS, set_columns_layout, h1, List.getD],
      rfl, rfl, rfl, by simp [WIDTH_OPTIONS]⟩
  · exact ⟨{ s with width := 1, columns := 16, ignore_change := false },
      by simp [action_toggle_width, pyIndex, WIDTH_OPTIONS, set_columns_layout, h1, List.getD],
      rfl, rfl, rfl, by simp [WIDTH_OPTIONS]⟩

theorem iter_toggle_invariants : ∀ (n : Nat) (s s2 : HexState),
    s.width ∈ WIDTH_OPTIONS → iterToggle n s = some s2 →
    s2.rows = s.rows ∧ s2.row_depth = s.row_depth := by
  intro n
  induction n with
  | zero =>
    intro s s2 _ hit
    simp only [iterToggle, Option.some_inj] at hit
    subst hit
    exact ⟨rfl, rfl⟩
  | succ n ih =>
    intro s s2 h hit
    obtain ⟨t, ha, _hoff, hrows, hrd, hw⟩ := toggle_step s h
    rw [iterToggle, ha] at hit
    obtain ⟨h1, h2⟩ := ih t s2 hw hit
    exact ⟨h1.trans hrows, h2.trans hrd⟩

/-! ### Claim theorems -/

/-- C1 (code bug): the offset-to-coordinate conversion of
`refresh_display`/`action_goto_offset` followed by the coordinate-to-offset
computation of the cell-highlighted handler is not the identity: at group
width 2 the handler maps the coordinate of cursor offset 2 back to 1,
because it computes `row * row_depth + column` without multiplying the
column by the group width. At width 1 the round trip does hold. -/
theorem c1_roundTrip_code_bug :
    cursorRoundTrip (HexTex_init 32 2) 2 = 1 ∧
    cursorRoundTrip (HexTex_init 32 2) 2 ≠ 2 ∧
    cursorRoundTrip (HexTex_init 32 1) 17 = 17 := by decide

/-- C2 (code bug): after a highlight event in the hex grid at `(0, 1)`
with group width 2, the handler sets `offset := 1` and moves the ASCII
cursor to the same `(0, 1)`; but the hex cell `(0, 1)` displays the bytes
starting at offset 2 (for the file bytes 65..96, the group value 0x4443 =
bytes 67, 68 at offsets 2, 3) while the ASCII cell `(0, 1)` shows the byte
at offset 1 (the character "B" = byte 66), so the two grids highlight
different byte offsets. -/
theorem c2_cursor_sync_code_bug :
    (onCellHighlighted (HexTex_init 32 2) true 0 1).1.offset = 1 ∧
    (onCellHighlighted (HexTex_init 32 2) true 0 1).2 = some (0, 1) ∧
    hexCellByteOffset (HexTex_init 32 2) 0 1 = 2 ∧
    asciiCellByteOffset (HexTex_init 32 2) 0 1 = 1 ∧
    (formatHexRow 2 true
        (rowChunk ((List.range 32).map (fun b => b + 65)) 16 0)).map
      (fun l => l.get? 1) = some (some "4443") ∧
    (asciiRow (rowChunk ((List.range 32).map (fun b => b + 65)) 16 0)).get? 1 =
      some "B" := by decide

/-- C3: `main` fails with `AttributeError` before showing any UI for every
existing input file: `bf.load()` looks up an attribute the `BinFile` class
never defines (it defines only `path`, `offset`, `size`, `load_chunk`,
`save_chunk`), and `HexTex.__init__` would likewise read the never-assigned
`binfile.data`. -/
theorem c3_startup_attribute_error :
    main_model true = MainOutcome.attributeError ∧
    binFileHasAttr "load" = false ∧
    binFileHasAttr "data" = false := by decide

/-- C4 (counterexample): on a 3-byte chunk with group width 2 the
formatting of `refresh_display` does not silently drop the partial
trailing group: `struct.unpack("<1H", chunk)` demands exactly 2 bytes and
raises `struct.error` (modelled as `none`), producing no cells at all. -/
theorem c4_partial_group_counterexample :
    formatHexRow 2 true [0, 0, 0] = none ∧
    ¬ (2 ∣ ([0, 0, 0] : List Nat).length) := by decide

/-- C4 (amended): for group widths 2, 4, 8, a chunk whose length is not a
multiple of the width makes row formatting raise `struct.error` (no cells);
a chunk whose length is a multiple of the width formats into exactly
`length / width` cells. -/
theorem c4_partial_group_amended :
    ∀ w : Nat, w ∈ ([2, 4, 8] : List Nat) → ∀ (little : Bool) (chunk : List Nat),
      (¬ (w ∣ chunk.length) → formatHexRow w little chunk = none) ∧
      (w ∣ chunk.length → ∃ cells, formatHexRow w little chunk = some cells ∧
        cells.length = chunk.length / w) := by
  intro w hw little chunk
  have h0 : w = 2 ∨ w = 4 ∨ w = 8 := by simpa using hw
  constructor
  · intro hnd
    rcases h0 with h | h | h <;> subst h <;>
      simp [formatHexRow, structUnpackU_none _ little chunk hnd]
  · intro hd
    rcases h0 with h | h | h <;> subst h
    · refine ⟨((List.range (chunk.length / 2)).map
        (fun i => groupValue little ((chunk.drop (i * 2)).take 2))).map
          (fun v => zfill 4 (pyHexUpper v)), ?_, by simp⟩
      simp [formatHexRow, structUnpackU_some 2 little chunk hd]
    · refine ⟨((List.range (chunk.length / 4)).map
        (fun i => groupValue little ((chunk.drop (i * 4)).take 4))).map
          (fun v => zfill 8 (pyHexUpper v)), ?_, by simp⟩
      simp [formatHexRow, structUnpackU_some 4 little chunk hd]
    · refine ⟨((List.range (chunk.length / 8)).map
        (fun i => groupValue little ((chunk.drop (i * 8)).take 8))).map
          (fun v => zfill 16 (pyHexUpper v)), ?_, by simp⟩
      simp [formatHexRow, structUnpackU_some 8 little chunk hd]

/-- C4 (witness): a 3-byte chunk errors at width 2, and a 4-byte chunk
formats into 2 cells. -/
theorem c4_partial_group_witness :
    formatHexRow 2 true [0, 0, 0] = none ∧
    (∃ cells, formatHexRow 2 true [0, 0, 0, 0] = some cells ∧ cells.length = 2) :=
  ⟨(c4_partial_group_amended 2 (by decide) true [0, 0, 0]).1 (by decide),
   by
    have h := (c4_partial_group_amended 2 (by decide) true [0, 0, 0, 0]).2 (by decide)
    simpa using h⟩

/-- C5: the goto-offset callback parses its entry as a base-16 integer;
a parse error or a value outside `[0, size)` leaves the state unchanged
and emits no cursor move, and a parse success inside the range sets
`offset` to the parsed value. -/
theorem c5_goto_offset :
    ∀ (size : Nat) (s : HexState) (entry : String),
      (pyIntHex entry = none → new_offset_model size s entry = (s, none)) ∧
      (∀ v : Int, pyIntHex entry = some v → ¬ (0 ≤ v ∧ v < (size : Int)) →
        new_offset_model size s entry = (s, none)) ∧
      (∀ v : Int, pyIntHex entry = some v → 0 ≤ v → v < (size : Int) →
        (new_offset_model size s entry).1 = { s with offset := v.toNat }) := by
  intro size s entry
  refine ⟨?_, ?_, ?_⟩
  · intro h
    unfold new_offset_model
    rw [h]
  · intro v hv hcond
    simp only [new_offset_model, hv]
    rw [if_neg hcond]
  · intro v hv h0 h1
    simp only [new_offset_model, hv]
    rw [if_pos (And.intro h0 h1)]

/-- C5 (witness): on a 32-byte file, the non-hex entry "zz" changes
nothing, and the entry "1F" sets the cursor offset to 31. -/
theorem c5_goto_offset_witness :
    new_offset_model 32 (HexTex_init 32 1) "zz" = (HexTex_init 32 1, none) ∧
    (new_offset_model 32 (HexTex_init 32 1) "1F").1 =
      { HexTex_init 32 1 with offset := (31 : Int).toNat } :=
  ⟨(c5_goto_offset 32 (HexTex_init 32 1) "zz").1 (by decide),
   (c5_goto_offset 32 (HexTex_init 32 1) "1F").2.2 31 (by decide) (by decide) (by decide)⟩

/-- C6: any sequence of width toggles succeeds and leaves the cursor
offset exactly where it was; only the displayed layout fields change. -/
theorem c6_toggle_preserves_offset :
    ∀ (n : Nat) (s : HexState), s.width ∈ WIDTH_OPTIONS →
      ∃ s2, iterToggle n s = some s2 ∧ s2.offset = s.offset := by
  intro n
  induction n with
  | zero => intro s _; exact ⟨s, rfl, rfl⟩
  | succ n ih =>
    intro s h
    obtain ⟨t, ha, hoff, _hrows, _hrd, hw⟩ := toggle_step s h
    obtain ⟨s3, hi, ho3⟩ := ih t hw
    exact ⟨s3, by rw [iterToggle, ha]; exact hi, ho3.trans hoff⟩

/-- C6 (witness): five toggles starting from width 2 on a 32-byte file
preserve the cursor offset. -/
theorem c6_toggle_witness :
    ∃ s2, iterToggle 5 (HexTex_init 32 2) = some s2 ∧
      s2.offset = (HexTex_init 32 2).offset :=
  c6_toggle_preserves_offset 5 (HexTex_init 32 2) (by decide)

/-- C9: for each width in `{1, 2, 4, 8}`, `set_columns` derives
`16 / width` hex columns whose header at index `i` is `"0x"` followed by
the hexadecimal of `i * width` zero-padded to exactly `2 * width` digits,
and the ASCII table always gets exactly `FIXED_ROW_WIDTH = 16` header
labels, one per raw byte column, independent of the width. -/
theorem c9_layout :
    (∀ w ∈ WIDTH_OPTIONS,
      set_columns_layout w =
        some (16 / w, (List.range (16 / w)).map
          (fun i => "0x" ++ zfill (2 * w) (pyHexUpper (i * w))))) ∧
    (∀ w ∈ WIDTH_OPTIONS, ∀ i < 16 / w,
      (zfill (2 * w) (pyHexUpper (i * w))).data.length = 2 * w) ∧
    asciiHeaders.length = FIXED_ROW_WIDTH := by decide

/-- C9 (witness): the width-4 layout instantiated, with the digit-length
fact at column index 2. -/
theorem c9_layout_witness :
    set_columns_layout 4 =
      some (16 / 4, (List.range (16 / 4)).map
        (fun i => "0x" ++ zfill (2 * 4) (pyHexUpper (i * 4)))) ∧
    (zfill (2 * 4) (pyHexUpper (2 * 4))).data.length = 2 * 4 ∧
    asciiHeaders.length = FIXED_ROW_WIDTH :=
  ⟨c9_layout.1 4 (by decide), c9_layout.2.1 4 (by decide) 2 (by decide), c9_layout.2.2⟩

/-- C10: the engine renders `totalSize // columns = totalSize // (16 // w)`
rows, fixed at construction from the initial width `w` and never changed
by later width toggles; this equals `(w * totalSize) // 16`, i.e. `w`
times `totalSize / rowDepth` (the row depth is 16 bytes), so for `w > 1`
rows whose 16-byte row offset lies at or past the end of the file are
still rendered, with an empty chunk. -/
theorem c10_rows_model :
    ∀ (ts w : Nat), w ∈ WIDTH_OPTIONS →
      (HexTex_init ts w).rows = ts / (16 / w) ∧
      (HexTex_init ts w).rows = (w * ts) / 16 ∧
      (∀ n s2, iterToggle n (HexTex_init ts w) = some s2 →
        s2.rows = (HexTex_init ts w).rows) ∧
      (1 < w → 32 ≤ ts →
        ∃ r, r < (HexTex_init ts w).rows ∧ ts ≤ r * (HexTex_init ts w).row_depth ∧
          ∀ data : List Nat, data.length = ts →
            rowChunk data (HexTex_init ts w).row_depth r = []) := by
  intro ts w hw
  have h0 : w = 1 ∨ w = 2 ∨ w = 4 ∨ w = 8 := by simpa [WIDTH_OPTIONS] using hw
  refine ⟨rfl, ?_, ?_, ?_⟩
  · rcases h0 with h | h | h | h <;> subst h <;>
      simp only [HexTex_init] <;> omega
  · intro n s2 hit
    exact (iter_toggle_invariants n (HexTex_init ts w) s2 hw hit).1
  · intro hgt hts
    have hrd : (HexTex_init ts w).row_depth = 16 := by
      rcases h0 with h | h | h | h <;> subst h <;> rfl
    have hrows : (HexTex_init ts w).rows = (w * ts) / 16 := by
      rcases h0 with h | h | h | h <;> subst h <;>
        simp only [HexTex_init] <;> omega
    refine ⟨(ts + 15) / 16, ?_, ?_, ?_⟩
    · rw [hrows]
      rcases h0 with h | h | h | h <;> subst h <;> omega
    · rw [hrd]
      omega
    · intro data hdata
      have hle : data.length ≤ (ts + 15) / 16 * (HexTex_init ts w).row_depth := by
        rw [hrd, hdata]
        omega
      unfold rowChunk
      rw [List.drop_eq_nil_of_le hle, List.take_nil]

/-- C10 (witness): a 32-byte file opened at width 2 renders 4 rows of
depth 16, and row 2 (byte offset 32, the end of the file) is rendered with
an empty chunk. -/
theorem c10_rows_witness :
    (HexTex_init 32 2).rows = 4 ∧
    (∃ r, r < (HexTex_init 32 2).rows ∧ 32 ≤ r * (HexTex_init 32 2).row_depth ∧
      ∀ data : List Nat, data.length = 32 →
        rowChunk data (HexTex_init 32 2).row_depth r = []) := by
  have h := c10_rows_model 32 2 (by decide)
  exact ⟨by simpa using h.1, h.2.2.2 (by decide) (by decide)⟩

/-! ### Hex formatting lemmas (for the RowFormatter claims) -/

theorem hexCharVal_hexDigitU : ∀ d : Nat, d < 16 → hexCharVal (hexDigitU d) = d := by
  decide

theorem isUpperHexChar_hexDigitU : ∀ d : Nat, d < 16 →
    isUpperHexChar (hexDigitU d) = true := by decide

theorem toHexRevAux_foldl : ∀ (fuel n a : Nat), n ≤ fuel →
    ((toHexRevAux fuel n).reverse).foldl (fun x c => x * 16 + hexCharVal c) a =
      a * 16 ^ (toHexRevAux fuel n).length + n := by
  intro fuel
  induction fuel with
  | zero =>
    intro n a h
    have hn : n = 0 := by omega
    subst hn
    simp [toHexRevAux]
  | succ fuel ih =>
    intro n a h
    by_cases hn : n = 0
    · subst hn; simp [toHexRevAux]
    · have hrec : n / 16 ≤ fuel := by omega
      simp only [toHexRevAux, if_neg hn]
      rw [List.reverse_cons, List.foldl_append, ih (n / 16) a hrec]
      simp only [List.foldl_cons, List.foldl_nil, List.length_cons]
      rw [hexCharVal_hexDigitU (n % 16) (Nat.mod_lt n (by omega))]
      have hmod : n / 16 * 16 + n % 16 = n := by omega
      calc (a * 16 ^ (toHexRevAux fuel (n / 16)).length + n / 16) * 16 + n % 16
          = a * (16 ^ (toHexRevAux fuel (n / 16)).length * 16) +
              (n / 16 * 16 + n % 16) := by ring
        _ = a * 16 ^ ((toHexRevAux fuel (n / 16)).length + 1) + n := by
              rw [hmod, pow_succ]

theorem toHexRevAux_length_le : ∀ (fuel n k : Nat), n ≤ fuel → n < 16 ^ k →
    (toHexRevAux fuel n).length ≤ k := by
  intro fuel
  induction fuel with
  | zero =>
    intro n k h _
    have hn : n = 0 := by omega
    subst hn
    simp [toHexRevAux]
  | succ fuel ih =>
    intro n k h hk
    by_cases hn : n = 0
    · subst hn; simp [toHexRevAux]
    · simp only [toHexRevAux, if_neg hn, List.length_cons]
      cases k with
      | zero =>
        simp only [pow_zero] at hk
        omega
      | succ k =>
        have h1 : n / 16 < 16 ^ k := by
          apply Nat.div_lt_of_lt_mul
          calc n < 16 ^ (k + 1) := hk
            _ = 16 * 16 ^ k := by ring
        have h2 : n / 16 ≤ fuel := by omega
        have := ih (n / 16) k h2 h1
        omega

theorem toHexRevAux_chars : ∀ (fuel n : Nat) (c : Char), c ∈ toHexRevAux fuel n →
    isUpperHexChar c = true := by
  intro fuel
  induction fuel with
  | zero => intro n c hc; simp [toHexRevAux] at hc
  | succ fuel ih =>
    intro n c hc
    by_cases hn : n = 0
    · subst hn; simp [toHexRevAux] at hc
    · simp only [toHexRevAux, if_neg hn, List.mem_cons] at hc
      rcases hc with hc | hc
      · subst hc
        exact isUpperHexChar_hexDigitU (n % 16) (Nat.mod_lt n (by omega))
      · exact ih (n / 16) c hc

theorem fromHexChars_pyHexUpper (n : Nat) : fromHexChars (pyHexUpper n).data = n := by
  unfold pyHexUpper
  by_cases hn : n = 0
  · subst hn
    rw [if_pos rfl]
    decide
  · rw [if_neg hn]
    show fromHexChars (toHexRev n).reverse = n
    unfold fromHexChars toHexRev
    simpa using toHexRevAux_foldl n n 0 (le_refl n)

theorem pyHexUpper_length_le (n k : Nat) (hk : 0 < k) (h : n < 16 ^ k) :
    (pyHexUpper n).data.length ≤ k := by
  unfold pyHexUpper
  by_cases hn : n = 0
  · subst hn
    rw [if_pos rfl]
    have h1 : ("0" : String).data.length = 1 := rfl
    omega
  · rw [if_neg hn]
    show (toHexRev n).reverse.length ≤ k
    rw [List.length_reverse]
    exact toHexRevAux_length_le n n k (le_refl n) h

theorem pyHexUpper_chars (n : Nat) (c : Char) (hc : c ∈ (pyHexUpper n).data) :
    isUpperHexChar c = true := by
  unfold pyHexUpper at hc
  by_cases hn : n = 0
  · subst hn
    rw [if_pos rfl] at hc
    have hd : ("0" : String).data = ['0'] := rfl
    rw [hd, List.mem_singleton] at hc
    subst hc
    decide
  · rw [if_neg hn] at hc
    have hc2 : c ∈ toHexRev n := List.mem_reverse.mp hc
    exact toHexRevAux_chars n n c hc2

theorem foldl_replicate_zero (m : Nat) (l : List Char) :
    (List.replicate m '0' ++ l).foldl (fun a c => a * 16 + hexCharVal c) 0 =
      l.foldl (fun a c => a * 16 + hexCharVal c) 0 := by
  induction m with
  | zero => rfl
  | succ m ih =>
    simp only [List.replicate_succ, List.cons_append, List.foldl_cons]
    have h0 : (0 : Nat) * 16 + hexCharVal '0' = 0 := by decide
    rw [h0, ih]

theorem zfill_data (k : Nat) (s : String) :
    (zfill k s).data = List.replicate (k - s.data.length) '0' ++ s.data := rfl

theorem fromHexChars_zfill (k : Nat) (s : String) :
    fromHexChars (zfill k s).data = fromHexChars s.data := by
  rw [zfill_data]
  exact foldl_replicate_zero (k - s.data.length) s.data

theorem zfill_length (k : Nat) (s : String) (h : s.data.length ≤ k) :
    (zfill k s).data.length = k := by
  rw [zfill_data, List.length_append, List.length_replicate]
  omega

theorem zfill_chars (k : Nat) (s : String) (c : Char) (hc : c ∈ (zfill k s).data)
    (hs : ∀ x ∈ s.data, isUpperHexChar x = true) : isUpperHexChar c = true := by
  rw [zfill_data, List.mem_append] at hc
  rcases hc with hc | hc
  · have h0 : c = '0' := List.eq_of_mem_replicate hc
    subst h0
    decide
  · exact hs c hc

theorem cell_spec (k v : Nat) (hk : 0 < k) (hv : v < 16 ^ k) :
    (zfill k (pyHexUpper v)).data.length = k ∧
    (∀ c ∈ (zfill k (pyHexUpper v)).data, isUpperHexChar c = true) ∧
    fromHexChars (zfill k (pyHexUpper v)).data = v := by
  refine ⟨zfill_length k _ (pyHexUpper_length_le v k hk hv), ?_, ?_⟩
  · intro c hc
    exact zfill_chars k _ c hc (fun x hx => pyHexUpper_chars v x hx)
  · rw [fromHexChars_zfill, fromHexChars_pyHexUpper]

theorem leValue_lt (bs : List Nat) (hb : ∀ b ∈ bs, b < 256) :
    leValue bs < 256 ^ bs.length := by
  induction bs with
  | nil => simp [leValue]
  | cons b t ih =>
    have hbb : b < 256 := hb b (List.mem_cons_self b t)
    have ht : leValue t < 256 ^ t.length :=
      ih (fun x hx => hb x (List.mem_cons_of_mem b hx))
    simp only [leValue, List.length_cons]
    calc b + 256 * leValue t < 256 + 256 * leValue t := by omega
      _ = 256 * (leValue t + 1) := by ring
      _ ≤ 256 * 256 ^ t.length := Nat.mul_le_mul_left 256 ht
      _ = 256 ^ (t.length + 1) := by rw [pow_succ, Nat.mul_comm]

theorem groupValue_lt (little : Bool) (bs : List Nat) (hb : ∀ b ∈ bs, b < 256) :
    groupValue little bs < 256 ^ bs.length := by
  unfold groupValue
  cases little with
  | true => simpa using leValue_lt bs hb
  | false =>
    simp only [Bool.false_eq_true, if_false]
    have := leValue_lt bs.reverse (fun b hbm => hb b (List.mem_reverse.mp hbm))
    simpa using this

theorem groupValue_lt_16pow (w : Nat) (little : Bool) (bs : List Nat)
    (hlen : bs.length ≤ w) (hb : ∀ b ∈ bs, b < 256) :
    groupValue little bs < 16 ^ (2 * w) := by
  have h1 := groupValue_lt little bs hb
  have h2 : (256 : Nat) ^ bs.length ≤ 256 ^ w := Nat.pow_le_pow_right (by omega) hlen
  have h3 : (256 : Nat) ^ w = 16 ^ (2 * w) := by
    rw [pow_mul]
    norm_num
  exact h3 ▸ lt_of_lt_of_le h1 h2

theorem unpack_map_spec (w : Nat) (hw : 0 < w) (little : Bool) (chunk : List Nat)
    (cells : List String) (hbytes : ∀ b ∈ chunk, b < 256)
    (h : (structUnpackU w little chunk).map
      (fun vs => vs.map (fun v => zfill (2 * w) (pyHexUpper v))) = some cells) :
    ∀ i, i < cells.length → ∃ cell, cells.get? i = some cell ∧
      cell.data.length = 2 * w ∧
      (∀ c ∈ cell.data, isUpperHexChar c = true) ∧
      fromHexChars cell.data = groupValue little ((chunk.drop (i * w)).take w) := by
  intro i hi
  obtain ⟨vs, hvs, hcells⟩ := Option.map_eq_some'.mp h
  unfold structUnpackU at hvs
  by_cases hc : w * (chunk.length / w) = chunk.length
  swap
  · rw [if_neg hc] at hvs; cases hvs
  rw [if_pos hc, Option.some_inj] at hvs
  subst hvs
  subst hcells
  rw [List.length_map, List.length_map, List.length_range] at hi
  refine ⟨zfill (2 * w) (pyHexUpper (groupValue little ((chunk.drop (i * w)).take w))),
    ?_, ?_⟩
  · rw [List.get?_map, List.get?_map, List.get?_range hi]
    rfl
  · have hsub : ∀ b ∈ (chunk.drop (i * w)).take w, b < 256 := by
      intro b hbm
      exact hbytes b (List.drop_subset (i * w) chunk (List.take_subset w _ hbm))
    have hlen : ((chunk.drop (i * w)).take w).length ≤ w := List.length_take_le w _
    exact cell_spec (2 * w) _ (by omega) (groupValue_lt_16pow w little _ hlen hsub)

/-- C7: every displayed hex cell is a string of exactly `2 * width`
uppercase hexadecimal digits whose numeric value is the value of the
corresponding `width`-byte group of the chunk under the configured
endianness (`little = true` meaning least significant byte first). -/
theorem c7_hex_cells :
    ∀ w ∈ WIDTH_OPTIONS, ∀ (little : Bool) (chunk : List Nat) (cells : List String),
      (∀ b ∈ chunk, b < 256) →
      formatHexRow w little chunk = some cells →
      ∀ i, i < cells.length → ∃ cell, cells.get? i = some cell ∧
        cell.data.length = 2 * w ∧
        (∀ c ∈ cell.data, isUpperHexChar c = true) ∧
        fromHexChars cell.data = groupValue little ((chunk.drop (i * w)).take w) := by
  intro w hw little chunk cells hbytes hfmt
  have h0 : w = 1 ∨ w = 2 ∨ w = 4 ∨ w = 8 := by simpa [WIDTH_OPTIONS] using hw
  rcases h0 with h | h | h | h <;> subst h
  · -- width 1: one cell per byte, f"{b:02X}"
    intro i hi
    simp only [formatHexRow, if_true, Option.some_inj, reduceIte] at hfmt
    subst hfmt
    rw [List.length_map] at hi
    have hbval : chunk.get? i = some (chunk.get ⟨i, hi⟩) := List.get?_eq_get hi
    have hgrp : (chunk.drop (i * 1)).take 1 = [chunk.get ⟨i, hi⟩] := by
      rw [Nat.mul_one, ← List.get_cons_drop chunk ⟨i, hi⟩]
      rfl
    refine ⟨zfill 2 (pyHexUpper (chunk.get ⟨i, hi⟩)), ?_, ?_⟩
    · rw [List.get?_map, hbval]
      rfl
    · have hb16 : chunk.get ⟨i, hi⟩ < 16 ^ 2 := by
        calc chunk.get ⟨i, hi⟩ < 256 := hbytes _ (List.get_mem chunk i hi)
          _ ≤ 16 ^ 2 := by norm_num
      have hgv : groupValue little [chunk.get ⟨i, hi⟩] = chunk.get ⟨i, hi⟩ := by
        cases little <;> simp [groupValue, leValue]
      have hcs := cell_spec 2 (chunk.get ⟨i, hi⟩) (by omega) hb16
      rw [hgrp, hgv]
      have h21 : 2 * 1 = 2 := rfl
      rw [h21]
      exact hcs
  · exact unpack_map_spec 2 (by omega) little chunk cells hbytes
      (by simpa [formatHexRow] using hfmt) 
  · exact unpack_map_spec 4 (by omega) little chunk cells hbytes
      (by simpa [formatHexRow] using hfmt)
  · exact unpack_map_spec 8 (by omega) little chunk cells hbytes
      (by simpa [formatHexRow] using hfmt)

/-- C7 (witness): the little-endian chunk `[1, 2]` at width 2 renders as
the single cell "0201", a 4-digit uppercase string with value 0x0201. -/
theorem c7_hex_cells_witness :
    ∃ cell, (["0201"] : List String).get? 0 = some cell ∧
      cell.data.length = 2 * 2 ∧
      (∀ c ∈ cell.data, isUpperHexChar c = true) ∧
      fromHexChars cell.data = groupValue true ((([1, 2] : List Nat).drop (0 * 2)).take 2) :=
  c7_hex_cells 2 (by decide) true [1, 2] ["0201"] (by decide) (by decide) 0 (by decide)

theorem renderRow_ascii (w : Nat) (little : Bool) (chunk : List Nat)
    (hexCells asciiCells : List String)
    (h : renderRow w little chunk = some (hexCells, asciiCells)) :
    asciiCells = asciiRow chunk := by
  unfold renderRow at h
  cases hf : formatHexRow w little chunk with
  | none => rw [hf] at h; cases h
  | some hx =>
    rw [hf, Option.some_inj] at h
    exact (congrArg Prod.snd h).symm

/-- C8: for every row chunk and every group width, the ASCII view has
exactly one cell per raw byte, identical across all widths; a byte in
`[32, 126]` renders as its character and every other byte as `"."`. -/
theorem c8_ascii_cells :
    ∀ (w : Nat) (little : Bool) (chunk : List Nat) (hexCells asciiCells : List String),
      renderRow w little chunk = some (hexCells, asciiCells) →
      asciiCells.length = chunk.length ∧
      (∀ (w2 : Nat) (little2 : Bool) (hc2 ac2 : List String),
        renderRow w2 little2 chunk = some (hc2, ac2) → ac2 = asciiCells) ∧
      (∀ i, i < chunk.length →
        asciiCells.get? i = some (if 32 ≤ chunk.getD i 0 ∧ chunk.getD i 0 ≤ 126
          then String.mk [Char.ofNat (chunk.getD i 0)] else ".")) := by
  intro w little chunk hexCells asciiCells h
  have ha : asciiCells = asciiRow chunk := renderRow_ascii w little chunk _ _ h
  subst ha
  refine ⟨by simp [asciiRow], ?_, ?_⟩
  · intro w2 little2 hc2 ac2 h2
    exact renderRow_ascii w2 little2 chunk _ _ h2
  · intro i hi
    have hbval : chunk.get? i = some (chunk.get ⟨i, hi⟩) := List.get?_eq_get hi
    have hd : chunk.getD i 0 = chunk.get ⟨i, hi⟩ := by
      rw [List.getD_eq_get? chunk i 0, hbval]
      rfl
    unfold asciiRow
    rw [List.get?_map, hbval, hd]
    rfl

/-- C8 (witness): the chunk `[65, 10, 0, 200]` rendered at width 4 gives
four ASCII cells, one per raw byte: "A" for 65 and "." for the
unprintable bytes. -/
theorem c8_ascii_cells_witness :
    (["A", ".", ".", "."] : List String).length = ([65, 10, 0, 200] : List Nat).length ∧
    (["A", ".", ".", "."] : List String).get? 0 =
      some (if 32 ≤ ([65, 10, 0, 200] : List Nat).getD 0 0 ∧
          ([65, 10, 0, 200] : List Nat).getD 0 0 ≤ 126
        then String.mk [Char.ofNat (([65, 10, 0, 200] : List Nat).getD 0 0)] else ".") := by
  have h := c8_ascii_cells 4 true [65, 10, 0, 200] ["C8000A41"] ["A", ".", ".", "."]
    (by decide)
  exact ⟨h.1, h.2.2 0 (by decide)⟩
